import Mathlib

/-!
Verification of the scrape orchestration core in lib/promscrape/scraper.go.

The embedding below translates the orchestration code into pure Lean
definitions:

* Go maps over string keys become association lists (`List (String × α)`);
  one-value map reads on a slice-valued map return the zero value (a nil
  slice), which is modelled by flattening with `Option`.
* The `scraperGroup` live map `m map[string]*scraper` becomes
  `Option (List (String × scraper))`: `none` models the nil map installed
  by `scraperGroup.stop`.  A read from the nil map yields the zero value,
  while a write to it is a runtime panic, recorded in the `panicked` field
  of the update result.
* Scraper instances are identified by a fresh natural-number id, standing
  for the pointer identity of the Go `*scraper`.
* The global flag `-promscrape.suppressDuplicateScrapeTargetErrors` is a
  `Bool` parameter threaded through `scraperGroup.update`.
* Side effects that the claims talk about (worker goroutine spawn,
  target-status Register, duplicate-registry Register, the duplicate
  diagnostic log line) are recorded in trace lists of the update result.
-/

/-- One Prometheus label, as in prompbmarshal.Label. -/
structure Label where
  name : String
  value : String
deriving DecidableEq, Repr

/-- A Go slice `[]prompbmarshal.Label`; `none` models a nil slice,
`some ls` a non-nil slice with elements `ls`. -/
abbrev OptLabels := Option (List Label)

/-- The fields of ScrapeWork that scraper.go reads.  Modelled from the spec:
ScrapeWork itself is defined outside this file (scrapework.go); `key` stands
for the method `sw.key()`, the canonical fingerprint over all
scrape-relevant fields, kept opaque here as the spec describes it.
`ScrapeURL` and `OriginalLabels` are the fields used by the duplicate
diagnostics of `scraperGroup.update`. -/
structure ScrapeWork where
  key : String
  ScrapeURL : String
  OriginalLabels : OptLabels
deriving DecidableEq, Repr

/-- First-match lookup in an association list, the value of the two-value
form `v, ok := m[k]` of a Go map read (`some` iff `ok`). -/
def mapLookup {α : Type} : List (String × α) → String → Option α
  | [], _ => none
  | e :: rest, k => if e.1 = k then some e.2 else mapLookup rest k

/-- Go map assignment `m[k] = v`: replace the entry for `k` in place, or
append a new entry. -/
def mapSet {α : Type} : List (String × α) → String → α → List (String × α)
  | [], k, v => [(k, v)]
  | e :: rest, k, v => if e.1 = k then (k, v) :: rest else e :: mapSet rest k v

/-- One-value Go map read `m[k]` on a map whose values are slices: a missing
key yields the zero value, a nil slice, indistinguishable from a stored nil
slice. -/
def lookupNil (m : List (String × OptLabels)) (k : String) : OptLabels :=
  match mapLookup m k with
  | some v => v
  | none => none

/-- The scraper shell: a ScrapeWork plus a stop channel.  The id models Go
pointer identity of the `*scraper` built by newScraper. -/
structure scraper where
  id : Nat
  swKey : String
deriving DecidableEq, Repr

/-- scraperGroup state (scraper.go lines 247-254): the live map `m` and an
id counter for fresh scraper identities.  `m = none` models the nil map set
by `stop()`. -/
structure scraperGroup where
  m : Option (List (String × scraper))
  nextId : Nat
deriving DecidableEq, Repr

/-- newScraperGroup (lines 256-270): a fresh group with an empty live map. -/
def scraperGroup.init : scraperGroup := { m := some [], nextId := 0 }

/-- The keys of the group live map (empty for the nil map). -/
def liveKeys (sg : scraperGroup) : List String :=
  match sg.m with
  | some mm => mm.map Prod.fst
  | none => []

/-- Observable side effects of the install path of `scraperGroup.update`
(lines 310-319), in program order: the `go` statement spawning the worker
goroutine, and the call `tsmGlobal.Register(sw)`. -/
inductive InstallAction
  | spawnWorker (id : Nat)
  | register (id : Nat)
deriving DecidableEq, Repr

/-- How `scraperGroup.update` handled one entry of `sws`. -/
inductive Verdict
  | dupDropped
  | keptExisting
  | started
deriving DecidableEq, Repr

/-- Accumulator of the first pass of `scraperGroup.update`
(lines 286-321). -/
structure Pass1St where
  swsMap : List (String × OptLabels)
  sg : scraperGroup
  additionsCount : Nat
  started : List (String × Nat)
  registered : List OptLabels
  loggedDup : Nat
  actions : List InstallAction
  verdicts : List Verdict
  panicked : Bool
deriving DecidableEq, Repr

/-- First pass of `scraperGroup.update` over `sws` (lines 289-321).
For each entry: read `swsMap[key]` (one-value form, nil for a missing
key); a non-nil result is an intra-batch duplicate, which is logged unless
suppressed, registered in droppedTargetsMap, and skipped.  Otherwise store
the original labels in swsMap; if the live map already has the key, keep
the running scraper; else spawn the worker goroutine, call Register, and
install the scraper in the live map — a write that panics when the map is
nil (after `stop`), which aborts the update. -/
def pass1 (suppress : Bool) : List ScrapeWork → Pass1St → Pass1St
  | [], st => st
  | sw :: rest, st =>
    let key := sw.key
    let originalLabels := lookupNil st.swsMap key
    if originalLabels.isSome then
      pass1 suppress rest { st with
        loggedDup := st.loggedDup + (if suppress then 0 else 1),
        registered := st.registered ++ [sw.OriginalLabels],
        verdicts := st.verdicts ++ [Verdict.dupDropped] }
    else
      let st1 := { st with swsMap := mapSet st.swsMap key sw.OriginalLabels }
      match st1.sg.m with
      | some mm =>
        if (mapLookup mm key).isSome then
          pass1 suppress rest { st1 with verdicts := st1.verdicts ++ [Verdict.keptExisting] }
        else
          let sc : scraper := { id := st1.sg.nextId, swKey := key }
          pass1 suppress rest { st1 with
            sg := { m := some (mapSet mm key sc), nextId := st1.sg.nextId + 1 },
            additionsCount := st1.additionsCount + 1,
            started := st1.started ++ [(key, sc.id)],
            actions := st1.actions ++ [InstallAction.spawnWorker sc.id, InstallAction.register sc.id],
            verdicts := st1.verdicts ++ [Verdict.started] }
      | none =>
          let sc : scraper := { id := st1.sg.nextId, swKey := key }
          { st1 with
            started := st1.started ++ [(key, sc.id)],
            actions := st1.actions ++ [InstallAction.spawnWorker sc.id, InstallAction.register sc.id],
            verdicts := st1.verdicts ++ [Verdict.started],
            panicked := true }

/-- Second pass of `scraperGroup.update` (lines 323-330): every live entry
whose key is missing from swsMap (two-value membership test) has its stop
channel closed and is deleted.  Returns the surviving entries and the keys
of the stopped scrapers. -/
def pass2 (swsMap : List (String × OptLabels)) :
    List (String × scraper) → List (String × scraper) × List String
  | [] => ([], [])
  | e :: rest =>
    let r := pass2 swsMap rest
    if (mapLookup swsMap e.1).isSome then (e :: r.1, r.2) else (r.1, e.1 :: r.2)

/-- Initial accumulator of the first pass: the fresh swsMap of line 288
and zeroed counters. -/
def pass1Init (sg : scraperGroup) : Pass1St :=
  { swsMap := [], sg := sg, additionsCount := 0, started := [],
    registered := [], loggedDup := 0, actions := [], verdicts := [],
    panicked := false }

/-- Result of one call to `scraperGroup.update`. -/
structure UpdateResult where
  sg : scraperGroup
  additionsCount : Nat
  deletionsCount : Nat
  started : List (String × Nat)
  stoppedKeys : List String
  registered : List OptLabels
  loggedDup : Nat
  actions : List InstallAction
  verdicts : List Verdict
  panicked : Bool
deriving DecidableEq, Repr

/-- scraperGroup.update (lines 282-336): the two-pass reconcile.  A panic
in the first pass (nil-map write after `stop`) aborts the call before the
second pass. -/
def scraperGroup.update (sg : scraperGroup) (suppress : Bool)
    (sws : List ScrapeWork) : UpdateResult :=
  let st := pass1 suppress sws (pass1Init sg)
  if st.panicked then
    { sg := st.sg, additionsCount := st.additionsCount, deletionsCount := 0,
      started := st.started, stoppedKeys := [], registered := st.registered,
      loggedDup := st.loggedDup, actions := st.actions,
      verdicts := st.verdicts, panicked := true }
  else
    match st.sg.m with
    | none =>
      { sg := st.sg, additionsCount := st.additionsCount, deletionsCount := 0,
        started := st.started, stoppedKeys := [], registered := st.registered,
        loggedDup := st.loggedDup, actions := st.actions,
        verdicts := st.verdicts, panicked := false }
    | some mm =>
      let r := pass2 st.swsMap mm
      { sg := { m := some r.1, nextId := st.sg.nextId },
        additionsCount := st.additionsCount, deletionsCount := r.2.length,
        started := st.started, stoppedKeys := r.2, registered := st.registered,
        loggedDup := st.loggedDup, actions := st.actions,
        verdicts := st.verdicts, panicked := false }

/-- scraperGroup.stop (lines 272-280): close every live stop channel and
set the map to nil.  Returns the new state and the keys whose scrapers were
signalled. -/
def scraperGroup.stop (sg : scraperGroup) : scraperGroup × List String :=
  ({ m := none, nextId := sg.nextId }, liveKeys sg)

/-- Group states reachable by any sequence of update and stop calls from a
fresh group. -/
inductive reachableGroup : scraperGroup → Prop
  | init : reachableGroup scraperGroup.init
  | update (sg : scraperGroup) (sup : Bool) (sws : List ScrapeWork) :
      reachableGroup sg → reachableGroup (sg.update sup sws).sg
  | stop (sg : scraperGroup) :
      reachableGroup sg → reachableGroup (sg.stop).1

/-- A parsed configuration.  Opaque to the core (spec section 3); the id
stands for the pointer identity of the Go `*Config`. -/
structure Config where
  id : Nat
deriving DecidableEq, Repr

/-- Outcome of the Go buffered-channel send `scfg.cfgCh <- cfg`
(line 195) on the capacity-1 channel created by `make(chan *Config, 1)`
(line 182): with a free buffer slot the value is queued and the sender
continues; with the slot occupied the sender blocks until a receiver
drains the buffer. -/
inductive SendOutcome
  | delivered (buf : Option Config)
  | blocked
deriving DecidableEq, Repr

/-- Send on a capacity-1 buffered channel whose buffer holds `buf`. -/
def chanSend1 (buf : Option Config) (cfg : Config) : SendOutcome :=
  match buf with
  | none => SendOutcome.delivered (some cfg)
  | some _ => SendOutcome.blocked

/-- scrapeConfigs.updateConfig (lines 193-197): send `cfg` to the inbound
channel of every scrapeConfig, in order.  `bufs` holds the buffer of each
capacity-1 channel; the result is `none` when some send blocks the runner
(a buffer still holds an unconsumed config), else the new buffers. -/
def updateConfig : List (Option Config) → Config → Option (List (Option Config))
  | [], _ => some []
  | b :: rest, cfg =>
    match chanSend1 b cfg with
    | SendOutcome.delivered b1 => (updateConfig rest cfg).map (fun l => b1 :: l)
    | SendOutcome.blocked => none

/-- Runner state inside the event loop of runScraper: the last loaded
config and its raw bytes. -/
structure RunnerState where
  cfg : Config
  data : List Nat
deriving DecidableEq, Repr

/-- The three event sources of the runScraper select (lines 121-153). -/
inductive RunnerEvent
  | sighup
  | tick
  | stop
deriving DecidableEq, Repr

/-- Effects of one iteration of the runScraper event loop. -/
structure StepResult where
  state : RunnerState
  fanOut : Option Config
  incReloads : Bool
  stopped : Bool
deriving DecidableEq, Repr

/-- One iteration of the runScraper event loop (lines 118-156).  `load` is
the result of `loadConfig(configFile)` for this event (`none` on a read
error).  On sighup or tick: a failed read or byte-equal raw bytes jump
back to the select (goto waitForChans) without touching state, the reload
counter, or the fan-out; otherwise cfg and data are replaced, the reload
counter is incremented (line 155), and the loop top fans the new config
out (line 119).  On stop the scrapers are stopped and the loop returns. -/
def runScraperStep (s : RunnerState) (ev : RunnerEvent)
    (load : Option (Config × List Nat)) : StepResult :=
  match ev with
  | RunnerEvent.stop =>
    { state := s, fanOut := none, incReloads := false, stopped := true }
  | RunnerEvent.sighup =>
    match load with
    | none => { state := s, fanOut := none, incReloads := false, stopped := false }
    | some (cfgNew, dataNew) =>
      if dataNew = s.data then
        { state := s, fanOut := none, incReloads := false, stopped := false }
      else
        { state := { cfg := cfgNew, data := dataNew }, fanOut := some cfgNew,
          incReloads := true, stopped := false }
  | RunnerEvent.tick =>
    match load with
    | none => { state := s, fanOut := none, incReloads := false, stopped := false }
    | some (cfgNew, dataNew) =>
      if dataNew = s.data then
        { state := s, fanOut := none, incReloads := false, stopped := false }
      else
        { state := { cfg := cfgNew, data := dataNew }, fanOut := some cfgNew,
          incReloads := true, stopped := false }

/-- CheckConfig (lines 51-58): an empty -promscrape.config is rejected
before loadConfig is even consulted; otherwise the loadConfig error, if
any, is returned.  `load` abstracts `loadConfig`, giving for each path
either an error message or a parsed config with its raw bytes. -/
def CheckConfig (promscrapeConfigFile : String)
    (load : String → Except String (Config × List Nat)) : Option String :=
  if promscrapeConfigFile = "" then some "missing -promscrape.config option"
  else
    match load promscrapeConfigFile with
    | Except.error e => some e
    | Except.ok _ => none

/-- How runScraper (lines 86-117) leaves its startup phase. -/
inductive RunScraperStart
  | noopReturn
  | fatalExit (e : String)
  | loopStarted (cfg : Config) (data : List Nat)
deriving DecidableEq, Repr

/-- Startup phase of runScraper (lines 86-96): an empty config path
returns immediately (nothing to scrape); a failed initial load is fatal;
otherwise the loop is entered with the loaded config. -/
def runScraperStart (configFile : String)
    (load : String → Except String (Config × List Nat)) : RunScraperStart :=
  if configFile = "" then RunScraperStart.noopReturn
  else
    match load configFile with
    | Except.error e => RunScraperStart.fatalExit e
    | Except.ok cd => RunScraperStart.loopStarted cd.1 cd.2

/-- Outstanding scraperWG tasks after Init (lines 63-70) once runScraper
has reached the given startup outcome: the single goroutine added by Init
has called Done exactly when runScraper returned.  Stop (lines 72-76)
completes exactly when this count is zero. -/
def scraperWGOutstanding (o : RunScraperStart) : Nat :=
  match o with
  | RunScraperStart.noopReturn => 0
  | RunScraperStart.fatalExit _ => 0
  | RunScraperStart.loopStarted _ _ => 1

/-- Steps of the worker goroutine spawned for a new scraper
(lines 313-317): the deferred wg.Done, the call `sc.sw.run(sc.stopCh)`
running to completion, and `tsmGlobal.Unregister(sw)`. -/
inductive WorkerStep
  | runWorker
  | unregisterCall
  | wgDone
deriving DecidableEq, Repr

/-- Program order of the worker goroutine body (lines 313-317): run the
scrape loop to completion, then Unregister, then the deferred Done. -/
def scraperWorkerBody : List WorkerStep :=
  [WorkerStep.runWorker, WorkerStep.unregisterCall, WorkerStep.wgDone]

/-- `a` occurs strictly before `b` in the list `l`. -/
abbrev occursBefore {α : Type} [DecidableEq α] (l : List α) (a b : α) : Prop :=
  ∃ i : Fin l.length, ∃ j : Fin l.length,
    i.val < j.val ∧ l.get i = a ∧ l.get j = b

/-- The two operations performed on the global PendingScrapeConfigs
counter during a run: `scrapeConfigs.add` (line 176) increments it, and
`scrapeConfig.run` decrements it (line 233) after the first
extract-and-update completes. -/
inductive PendingOp
  | add
  | dec
deriving DecidableEq, Repr

/-- Serialized trace of PendingScrapeConfigs operations in one run of
runScraper with `n` SD categories: all `n` increments happen in the add
calls (lines 99-108) before the first fan-out (line 119), and each
scrapeConfig decrements exactly once, after it has received the first
config from its inbound channel — which is only fed by that first
fan-out.  Hence every run trace is `n` adds followed by `n` decrements. -/
def runTrace (n : Nat) : List PendingOp :=
  List.replicate n PendingOp.add ++ List.replicate n PendingOp.dec

/-- Value of the counter (started at zero) after a list of operations. -/
def pendingAfter : List PendingOp → Int
  | [] => 0
  | PendingOp.add :: rest => 1 + pendingAfter rest
  | PendingOp.dec :: rest => -1 + pendingAfter rest

/-- Number of increments in a trace. -/
def countAdd : List PendingOp → Nat
  | [] => 0
  | PendingOp.add :: rest => countAdd rest + 1
  | PendingOp.dec :: rest => countAdd rest

/-- Number of decrements in a trace. -/
def countDec : List PendingOp → Nat
  | [] => 0
  | PendingOp.add :: rest => countDec rest
  | PendingOp.dec :: rest => countDec rest + 1

/-- Reading of PendingScrapeConfigs after the first `t` operations of a
run with `n` categories. -/
def pendingAt (n t : Nat) : Int :=
  pendingAfter ((runTrace n).take t)

/-- Membership in the key list is lookup success. -/
theorem mapLookup_isSome_iff {α : Type} (m : List (String × α)) (k : String) :
    (mapLookup m k).isSome = true ↔ k ∈ m.map Prod.fst := by
  induction m with
  | nil => simp [mapLookup]
  | cons e rest ih =>
    by_cases h : e.1 = k
    · simp [mapLookup, h]
    · simp [mapLookup, h, ih, Ne.symm h]

/-- Go map assignment stores the value under the key. -/
theorem mapLookup_mapSet_self {α : Type} (m : List (String × α)) (k : String) (v : α) :
    mapLookup (mapSet m k v) k = some v := by
  induction m with
  | nil => simp [mapSet, mapLookup]
  | cons e rest ih =>
    by_cases h : e.1 = k
    · simp [mapSet, h, mapLookup]
    · simp [mapSet, h, mapLookup, ih]

/-- Go map assignment leaves other keys untouched. -/
theorem mapLookup_mapSet_ne {α : Type} (m : List (String × α)) (k k' : String) (v : α)
    (h : k' ≠ k) : mapLookup (mapSet m k v) k' = mapLookup m k' := by
  induction m with
  | nil => simp [mapSet, mapLookup, Ne.symm h]
  | cons e rest ih =>
    by_cases he : e.1 = k
    · subst he
      simp [mapSet, mapLookup, Ne.symm h]
    · simp only [mapSet, he, if_false, mapLookup]
      by_cases he' : e.1 = k'
      · simp [he']
      · simp [he', ih]

/-- Keys after a Go map assignment. -/
theorem mem_keys_mapSet {α : Type} (m : List (String × α)) (k k' : String) (v : α) :
    k' ∈ (mapSet m k v).map Prod.fst ↔ k' ∈ m.map Prod.fst ∨ k' = k := by
  induction m with
  | nil => simp [mapSet]
  | cons e rest ih =>
    by_cases h : e.1 = k
    · subst h
      simp [mapSet]
      tauto
    · simp [mapSet, h, ih]
      tauto

/-- Go map assignment preserves key distinctness. -/
theorem nodup_keys_mapSet {α : Type} (m : List (String × α)) (k : String) (v : α)
    (h : (m.map Prod.fst).Nodup) : ((mapSet m k v).map Prod.fst).Nodup := by
  induction m with
  | nil => simp [mapSet]
  | cons e rest ih =>
    by_cases he : e.1 = k
    · subst he
      simpa [mapSet] using h
    · simp only [List.map_cons, List.nodup_cons] at h
      simp only [mapSet, he, if_false, List.map_cons, List.nodup_cons]
      refine ⟨fun hc => ?_, ih h.2⟩
      rcases (mem_keys_mapSet rest k e.1 v).mp hc with hc | hc
      · exact h.1 hc
      · exact he hc

/-- The entries surviving the deletion pass form a subsequence of the live
map. -/
theorem pass2_fst_sublist (sm : List (String × OptLabels))
    (mm : List (String × scraper)) : (pass2 sm mm).1.Sublist mm := by
  induction mm with
  | nil => simp [pass2]
  | cons e rest ih =>
    simp only [pass2]
    by_cases h : (mapLookup sm e.1).isSome = true
    · simpa [h] using ih.cons₂ e
    · simpa [h] using ih.cons e

/-- Lookup after the deletion pass: a key keeps its scraper iff it is
desired, and is gone otherwise. -/
theorem mapLookup_pass2 (sm : List (String × OptLabels))
    (mm : List (String × scraper)) (k : String) :
    mapLookup (pass2 sm mm).1 k =
      if (mapLookup sm k).isSome = true then mapLookup mm k else none := by
  induction mm with
  | nil => simp [pass2, mapLookup]
  | cons e rest ih =>
    simp only [pass2]
    by_cases he : e.1 = k
    · subst he
      by_cases h : (mapLookup sm e.1).isSome = true
      · simp [h, mapLookup]
      · simp [h, ih]
    · by_cases h : (mapLookup sm e.1).isSome = true
      · simp [h, mapLookup, he, ih]
      · simp [h, mapLookup, he, ih]

/-- A key is among the stopped ones iff it was live and is not desired. -/
theorem pass2_stopped_mem (sm : List (String × OptLabels))
    (mm : List (String × scraper)) (k : String) :
    k ∈ (pass2 sm mm).2 ↔
      k ∈ mm.map Prod.fst ∧ (mapLookup sm k).isSome = false := by
  induction mm with
  | nil => simp [pass2]
  | cons e rest ih =>
    simp only [pass2]
    by_cases h : (mapLookup sm e.1).isSome = true
    · simp only [if_pos h, ih, List.map_cons, List.mem_cons]
      constructor
      · rintro ⟨hm, hs⟩
        exact ⟨Or.inr hm, hs⟩
      · rintro ⟨hk | hm, hs⟩
        · subst hk
          simp [h] at hs
        · exact ⟨hm, hs⟩
    · simp only [if_neg h, List.mem_cons, ih, List.map_cons]
      rw [Bool.not_eq_true] at h
      constructor
      · rintro (hk | ⟨hm, hs⟩)
        · subst hk
          exact ⟨Or.inl rfl, h⟩
        · exact ⟨Or.inr hm, hs⟩
      · rintro ⟨hk | hm, hs⟩
        · exact Or.inl hk
        · exact Or.inr ⟨hm, hs⟩

/-- C10: CheckConfig rejects an empty -promscrape.config path with an
error, while starting the scraper with an empty path is a silent no-op
run: runScraper returns immediately without creating any scrape config,
leaving no outstanding scraperWG task, so Stop completes. -/
theorem checkConfig_rejects_empty_path_runScraper_noop
    (load : String → Except String (Config × List Nat)) :
    CheckConfig "" load = some "missing -promscrape.config option"
      ∧ runScraperStart "" load = RunScraperStart.noopReturn
      ∧ scraperWGOutstanding (runScraperStart "" load) = 0 := by
  refine ⟨?_, ?_, ?_⟩ <;> simp [CheckConfig, runScraperStart, scraperWGOutstanding]

/-- C7: a reload event (SIGHUP or recheck tick) whose successful load
returns raw bytes equal to the previous ones leaves the runner state
(config and bytes) unchanged, performs no fan-out — so no group sees an
update from this event — and does not increment the reload counter. -/
theorem reload_unchanged_bytes_noop (s : RunnerState) (ev : RunnerEvent)
    (cfgNew : Config) (dataNew : List Nat) (hev : ev ≠ RunnerEvent.stop)
    (hdata : dataNew = s.data) :
    runScraperStep s ev (some (cfgNew, dataNew)) =
      { state := s, fanOut := none, incReloads := false, stopped := false } := by
  cases ev with
  | sighup => simp [runScraperStep, hdata]
  | tick => simp [runScraperStep, hdata]
  | stop => exact absurd rfl hev

/-- Witness for the C7 theorem at a concrete state and load result. -/
theorem reload_unchanged_bytes_noop_witness :
    runScraperStep { cfg := { id := 0 }, data := [1, 2] } RunnerEvent.sighup
        (some ({ id := 5 }, [1, 2])) =
      { state := { cfg := { id := 0 }, data := [1, 2] }, fanOut := none,
        incReloads := false, stopped := false } :=
  reload_unchanged_bytes_noop _ _ _ _ (by decide) rfl

/-- C5 counterexample: with the previously queued config still unconsumed
in a scrapeConfig inbound buffer, the fan-out send blocks the runner; the
newer config does not supersede the queued one, refuting the claimed
overwrite semantics. -/
theorem updateConfig_blocks_on_full_buffer :
    updateConfig [some { id := 0 }] { id := 1 } = none
      ∧ updateConfig [some { id := 0 }] { id := 1 } ≠ some [some { id := 1 }] := by
  decide

/-- C5 amended: the capacity-1 inbound channels give blocking delivery:
when every buffer is free the runner queues the new config in each of
them, and whenever some buffer still holds an unconsumed config the
runner blocks on that send instead of overwriting it. -/
theorem updateConfig_delivery_semantics (bufs : List (Option Config)) (cfg : Config) :
    ((∀ b ∈ bufs, b = none) →
        updateConfig bufs cfg = some (bufs.map (fun _ => some cfg)))
    ∧ ((∃ b ∈ bufs, b.isSome = true) → updateConfig bufs cfg = none) := by
  induction bufs with
  | nil => simp [updateConfig]
  | cons b rest ih =>
    constructor
    · intro h
      have hb : b = none := h b (List.mem_cons_self ..)
      subst hb
      have := ih.1 (fun x hx => h x (List.mem_cons_of_mem _ hx))
      simp [updateConfig, chanSend1, this]
    · rintro ⟨x, hx, hs⟩
      rcases List.mem_cons.mp hx with h1 | h1
      · subst h1
        cases x with
        | none => simp at hs
        | some c => simp [updateConfig, chanSend1]
      · clear hx
        cases b with
        | none =>
          have hrec := ih.2 ⟨x, h1, hs⟩
          simp [updateConfig, chanSend1, hrec]
        | some c => simp [updateConfig, chanSend1]

/-- Witness for the C5 amended theorem. -/
theorem updateConfig_delivery_semantics_witness :
    updateConfig [none, none] { id := 7 } = some [some { id := 7 }, some { id := 7 }]
      ∧ updateConfig [none, some { id := 0 }] { id := 7 } = none := by
  constructor
  · exact (updateConfig_delivery_semantics [none, none] { id := 7 }).1 (by decide)
  · exact (updateConfig_delivery_semantics [none, some { id := 0 }] { id := 7 }).2
      ⟨some { id := 0 }, by decide, by decide⟩

/-- C6 counterexample: calling update on a stopped group (nil live map)
with a non-empty desired list is not a no-op: the reconcile spawns and
registers a scraper for the first entry and then panics on the nil-map
write, refuting both the no-panic and the no-scraper parts of the
claim. -/
theorem update_after_stop_panics :
    ((scraperGroup.init.stop).1.update false
        [{ key := "k", ScrapeURL := "u", OriginalLabels := some [] }]).panicked = true
      ∧ ((scraperGroup.init.stop).1.update false
        [{ key := "k", ScrapeURL := "u", OriginalLabels := some [] }]).started ≠ [] := by
  decide

/-- C6 amended: after stop() has set the live map to nil, update is a
no-op only for the empty desired list; for any non-empty list the first
entry is spawned and registered and the nil-map write then panics, so the
reconcile is aborted before the deletion pass. -/
theorem update_after_stop_semantics (sg : scraperGroup) (sup : Bool) :
    ((sg.stop).1.update sup [] =
      { sg := (sg.stop).1, additionsCount := 0, deletionsCount := 0,
        started := [], stoppedKeys := [], registered := [], loggedDup := 0,
        actions := [], verdicts := [], panicked := false })
    ∧ ∀ (sw : ScrapeWork) (rest : List ScrapeWork),
        ((sg.stop).1.update sup (sw :: rest)).panicked = true
        ∧ ((sg.stop).1.update sup (sw :: rest)).started = [(sw.key, sg.nextId)] := by
  refine ⟨rfl, fun sw rest => ?_⟩
  simp [scraperGroup.update, scraperGroup.stop, pass1, pass1Init, lookupNil, mapLookup]

/-- Reduction of update when the first pass panicked. -/
theorem update_eq_of_panicked (sg : scraperGroup) (sup : Bool) (sws : List ScrapeWork)
    (h : (pass1 sup sws (pass1Init sg)).panicked = true) :
    sg.update sup sws =
      { sg := (pass1 sup sws (pass1Init sg)).sg,
        additionsCount := (pass1 sup sws (pass1Init sg)).additionsCount,
        deletionsCount := 0,
        started := (pass1 sup sws (pass1Init sg)).started,
        stoppedKeys := [],
        registered := (pass1 sup sws (pass1Init sg)).registered,
        loggedDup := (pass1 sup sws (pass1Init sg)).loggedDup,
        actions := (pass1 sup sws (pass1Init sg)).actions,
        verdicts := (pass1 sup sws (pass1Init sg)).verdicts,
        panicked := true } := by
  simp [scraperGroup.update, h]

/-- Reduction of update when the first pass ended without panic on a nil
live map (possible only for an effectively empty desired list). -/
theorem update_eq_of_m_none (sg : scraperGroup) (sup : Bool) (sws : List ScrapeWork)
    (h : (pass1 sup sws (pass1Init sg)).panicked = false)
    (hm : (pass1 sup sws (pass1Init sg)).sg.m = none) :
    sg.update sup sws =
      { sg := (pass1 sup sws (pass1Init sg)).sg,
        additionsCount := (pass1 sup sws (pass1Init sg)).additionsCount,
        deletionsCount := 0,
        started := (pass1 sup sws (pass1Init sg)).started,
        stoppedKeys := [],
        registered := (pass1 sup sws (pass1Init sg)).registered,
        loggedDup := (pass1 sup sws (pass1Init sg)).loggedDup,
        actions := (pass1 sup sws (pass1Init sg)).actions,
        verdicts := (pass1 sup sws (pass1Init sg)).verdicts,
        panicked := false } := by
  simp [scraperGroup.update, h, hm]

/-- Reduction of update when the first pass ended without panic on a live
map: the deletion pass runs. -/
theorem update_eq_of_m_some (sg : scraperGroup) (sup : Bool) (sws : List ScrapeWork)
    (mm2 : List (String × scraper))
    (h : (pass1 sup sws (pass1Init sg)).panicked = false)
    (hm : (pass1 sup sws (pass1Init sg)).sg.m = some mm2) :
    sg.update sup sws =
      { sg := { m := some (pass2 (pass1 sup sws (pass1Init sg)).swsMap mm2).1,
                nextId := (pass1 sup sws (pass1Init sg)).sg.nextId },
        additionsCount := (pass1 sup sws (pass1Init sg)).additionsCount,
        deletionsCount := (pass2 (pass1 sup sws (pass1Init sg)).swsMap mm2).2.length,
        started := (pass1 sup sws (pass1Init sg)).started,
        stoppedKeys := (pass2 (pass1 sup sws (pass1Init sg)).swsMap mm2).2,
        registered := (pass1 sup sws (pass1Init sg)).registered,
        loggedDup := (pass1 sup sws (pass1Init sg)).loggedDup,
        actions := (pass1 sup sws (pass1Init sg)).actions,
        verdicts := (pass1 sup sws (pass1Init sg)).verdicts,
        panicked := false } := by
  simp [scraperGroup.update, h, hm]

/-- The spawn and Register effects recorded by the first pass consist, for
each started scraper in order, of the worker spawn immediately followed by
the Register call. -/
theorem pass1_actions_eq (sup : Bool) (l : List ScrapeWork) (st : Pass1St)
    (h : st.actions = st.started.flatMap
      (fun p => [InstallAction.spawnWorker p.2, InstallAction.register p.2])) :
    (pass1 sup l st).actions = (pass1 sup l st).started.flatMap
      (fun p => [InstallAction.spawnWorker p.2, InstallAction.register p.2]) := by
  induction l generalizing st with
  | nil => simpa [pass1] using h
  | cons sw rest ih =>
    simp only [pass1]
    by_cases hdup : (lookupNil st.swsMap sw.key).isSome = true
    · simp only [if_pos hdup]
      exact ih _ h
    · simp only [if_neg hdup]
      cases hm : st.sg.m with
      | some mm =>
        by_cases hl : (mapLookup mm sw.key).isSome = true
        · simp only [hm, if_pos hl]
          exact ih _ h
        · simp only [hm, if_neg hl]
          refine ih _ ?_
          simp [h, List.flatMap_append]
      | none =>
        simp only [hm]
        simp [h, List.flatMap_append]

/-- C9 counterexample: for a fresh group and a single new target, the
reconcile emits the worker spawn (the go statement, line 313) strictly
before the Register call (line 318), so Register is not called before the
worker is started. -/
theorem register_not_before_spawn :
    (scraperGroup.init.update false
        [{ key := "k", ScrapeURL := "u", OriginalLabels := some [] }]).actions
      = [InstallAction.spawnWorker 0, InstallAction.register 0]
    ∧ ¬ occursBefore
        (scraperGroup.init.update false
          [{ key := "k", ScrapeURL := "u", OriginalLabels := some [] }]).actions
        (InstallAction.register 0) (InstallAction.spawnWorker 0)
    ∧ occursBefore
        (scraperGroup.init.update false
          [{ key := "k", ScrapeURL := "u", OriginalLabels := some [] }]).actions
        (InstallAction.spawnWorker 0) (InstallAction.register 0) := by
  decide

/-- C9 amended: for every scraper started by a reconcile, the worker
spawn comes first and the Register call follows immediately, per started
scraper in order; and in the worker goroutine body the Unregister call
happens only after the worker run has returned. -/
theorem spawn_then_register_order (sg : scraperGroup) (sup : Bool)
    (sws : List ScrapeWork) :
    (sg.update sup sws).actions = (sg.update sup sws).started.flatMap
      (fun p => [InstallAction.spawnWorker p.2, InstallAction.register p.2])
    ∧ occursBefore scraperWorkerBody WorkerStep.runWorker WorkerStep.unregisterCall := by
  constructor
  · have hp := pass1_actions_eq sup sws (pass1Init sg) (by simp [pass1Init])
    cases hpan : (pass1 sup sws (pass1Init sg)).panicked with
    | true => rw [update_eq_of_panicked sg sup sws hpan]; exact hp
    | false =>
      cases hm : (pass1 sup sws (pass1Init sg)).sg.m with
      | none => rw [update_eq_of_m_none sg sup sws hpan hm]; exact hp
      | some mm2 => rw [update_eq_of_m_some sg sup sws mm2 hpan hm]; exact hp
  · decide

/-- A successful one-value read implies a successful two-value read. -/
theorem lookupNil_isSome (m : List (String × OptLabels)) (k : String)
    (h : (lookupNil m k).isSome = true) : (mapLookup m k).isSome = true := by
  unfold lookupNil at h
  cases hm : mapLookup m k with
  | none => rw [hm] at h; simp at h
  | some v => simp

/-- On a live map, the first pass never panics and keeps the map live. -/
theorem pass1_m_isSome (sup : Bool) (l : List ScrapeWork) (st : Pass1St)
    (h : st.sg.m.isSome = true) :
    (pass1 sup l st).sg.m.isSome = true
      ∧ (pass1 sup l st).panicked = st.panicked := by
  induction l generalizing st with
  | nil => exact ⟨h, rfl⟩
  | cons sw rest ih =>
    simp only [pass1]
    by_cases hdup : (lookupNil st.swsMap sw.key).isSome = true
    · simp only [if_pos hdup]
      exact ih _ h
    · simp only [if_neg hdup]
      cases hm : st.sg.m with
      | some mm =>
        by_cases hl : (mapLookup mm sw.key).isSome = true
        · simp only [hm, if_pos hl]
          exact ih _ h
        · simp only [hm, if_neg hl]
          exact ih _ (by simp)
      | none => rw [hm] at h; simp at h

/-- A scraper stored in the live map before the first pass is still there,
unchanged, afterwards: the pass installs only at keys whose lookup is nil
and never overwrites. -/
theorem pass1_lookup_mono (sup : Bool) (l : List ScrapeWork) (st : Pass1St)
    (mm : List (String × scraper)) (k : String) (sc : scraper)
    (hm : st.sg.m = some mm) (hk : mapLookup mm k = some sc) :
    ∃ mm', (pass1 sup l st).sg.m = some mm' ∧ mapLookup mm' k = some sc := by
  induction l generalizing st mm with
  | nil => exact ⟨mm, by simpa [pass1] using hm, hk⟩
  | cons sw rest ih =>
    simp only [pass1]
    by_cases hdup : (lookupNil st.swsMap sw.key).isSome = true
    · simp only [if_pos hdup]
      exact ih _ mm hm hk
    · simp only [if_neg hdup]
      cases hmm : st.sg.m with
      | none => rw [hmm] at hm; exact absurd hm (by simp)
      | some mm0 =>
        have hmm0 : mm = mm0 := by rw [hmm] at hm; exact (Option.some.inj hm).symm
        subst hmm0
        by_cases hl : (mapLookup mm sw.key).isSome = true
        · simp only [if_pos hl]
          exact ih _ mm hm hk
        · simp only [if_neg hl]
          have hkne : k ≠ sw.key := by
            intro he
            rw [← he, hk] at hl
            simp at hl
          refine ih _ (mapSet mm sw.key { id := st.sg.nextId, swKey := sw.key }) rfl ?_
          rw [mapLookup_mapSet_ne _ _ _ _ hkne]
          exact hk

/-- On a live map, the keys recorded in swsMap after the first pass are
the ones already there plus the keys of the processed entries. -/
theorem pass1_swsMap_mem (sup : Bool) (l : List ScrapeWork) (st : Pass1St)
    (k : String) (hm : st.sg.m.isSome = true) :
    (k ∈ (pass1 sup l st).swsMap.map Prod.fst ↔
      k ∈ st.swsMap.map Prod.fst ∨ k ∈ l.map ScrapeWork.key) := by
  induction l generalizing st with
  | nil => simp [pass1]
  | cons sw rest ih =>
    simp only [pass1, List.map_cons, List.mem_cons]
    by_cases hdup : (lookupNil st.swsMap sw.key).isSome = true
    · simp only [if_pos hdup]
      have hks : sw.key ∈ st.swsMap.map Prod.fst :=
        (mapLookup_isSome_iff _ _).mp (lookupNil_isSome _ _ hdup)
      refine Iff.trans (ih _ ?_) ?_
      · exact hm
      · constructor
        · rintro (h | h)
          · exact Or.inl h
          · exact Or.inr (Or.inr h)
        · rintro (h | h | h)
          · exact Or.inl h
          · subst h; exact Or.inl hks
          · exact Or.inr h
    · simp only [if_neg hdup]
      cases hmm : st.sg.m with
      | none => rw [hmm] at hm; simp at hm
      | some mm =>
        have hset : ∀ st2 : Pass1St,
            st2.swsMap = mapSet st.swsMap sw.key sw.OriginalLabels →
            st2.sg.m.isSome = true →
            (k ∈ (pass1 sup rest st2).swsMap.map Prod.fst ↔
              k ∈ st.swsMap.map Prod.fst ∨ k = sw.key ∨ k ∈ rest.map ScrapeWork.key) := by
          intro st2 hsw hm2
          rw [ih _ hm2, hsw, mem_keys_mapSet]
          tauto
        by_cases hl : (mapLookup mm sw.key).isSome = true
        · simp only [if_pos hl]
          refine hset _ rfl ?_
          exact hm
        · simp only [if_neg hl]
          refine hset _ rfl ?_
          simp

/-- Every key recorded in swsMap is live: the first pass installs a
scraper for each fresh desired key it records. -/
theorem pass1_swsMap_sub_live (sup : Bool) (l : List ScrapeWork) (st : Pass1St)
    (mm : List (String × scraper)) (hm : st.sg.m = some mm)
    (hsub : ∀ k, k ∈ st.swsMap.map Prod.fst → k ∈ mm.map Prod.fst) :
    ∃ mm', (pass1 sup l st).sg.m = some mm'
      ∧ ∀ k, k ∈ (pass1 sup l st).swsMap.map Prod.fst → k ∈ mm'.map Prod.fst := by
  induction l generalizing st mm with
  | nil => exact ⟨mm, by simpa [pass1] using hm, by simpa [pass1] using hsub⟩
  | cons sw rest ih =>
    simp only [pass1]
    by_cases hdup : (lookupNil st.swsMap sw.key).isSome = true
    · simp only [if_pos hdup]
      exact ih _ mm hm hsub
    · simp only [if_neg hdup]
      cases hmm : st.sg.m with
      | none => rw [hmm] at hm; exact absurd hm (by simp)
      | some mm0 =>
        have hmm0 : mm = mm0 := by rw [hmm] at hm; exact (Option.some.inj hm).symm
        subst hmm0
        by_cases hl : (mapLookup mm sw.key).isSome = true
        · simp only [if_pos hl]
          refine ih _ mm hm ?_
          intro k hk
          rcases (mem_keys_mapSet _ _ _ _).mp hk with h | h
          · exact hsub k h
          · subst h
            exact (mapLookup_isSome_iff _ _).mp hl
        · simp only [if_neg hl]
          refine ih _ (mapSet mm sw.key { id := st.sg.nextId, swKey := sw.key }) rfl ?_
          intro k hk
          rcases (mem_keys_mapSet _ _ _ _).mp hk with h | h
          · exact (mem_keys_mapSet _ _ _ _).mpr (Or.inl (hsub k h))
          · exact (mem_keys_mapSet _ _ _ _).mpr (Or.inr h)

/-- Core invariant of the install path: every started scraper is live
afterwards, the started keys are distinct, and any scraper started during
the pass was started at a key that was free in the live map the pass
began with. -/
theorem pass1_started_inv (sup : Bool) (l : List ScrapeWork) (st : Pass1St)
    (mm : List (String × scraper)) (hm : st.sg.m = some mm)
    (hstar : ∀ p ∈ st.started, (mapLookup mm p.1).isSome = true)
    (hnd : (st.started.map Prod.fst).Nodup) :
    ∃ mm', (pass1 sup l st).sg.m = some mm'
      ∧ (∀ p ∈ (pass1 sup l st).started, (mapLookup mm' p.1).isSome = true)
      ∧ ((pass1 sup l st).started.map Prod.fst).Nodup
      ∧ (∀ p ∈ (pass1 sup l st).started,
          p ∈ st.started ∨ mapLookup mm p.1 = none) := by
  induction l generalizing st mm with
  | nil => exact ⟨mm, hm, hstar, hnd, fun p hp => Or.inl hp⟩
  | cons sw rest ih =>
    simp only [pass1]
    by_cases hdup : (lookupNil st.swsMap sw.key).isSome = true
    · simp only [if_pos hdup]
      exact ih _ mm hm hstar hnd
    · simp only [if_neg hdup]
      cases hmm : st.sg.m with
      | none => rw [hmm] at hm; exact absurd hm (by simp)
      | some mm0 =>
        have hmm0 : mm = mm0 := by rw [hmm] at hm; exact (Option.some.inj hm).symm
        subst hmm0
        by_cases hl : (mapLookup mm sw.key).isSome = true
        · simp only [if_pos hl]
          exact ih _ mm hm hstar hnd
        · simp only [if_neg hl]
          have hlnone : mapLookup mm sw.key = none := by
            cases hc : mapLookup mm sw.key with
            | none => rfl
            | some v => rw [hc] at hl; simp at hl
          have hkey_not : sw.key ∉ st.started.map Prod.fst := by
            intro hmem
            rcases List.mem_map.mp hmem with ⟨p, hp, hpk⟩
            have := hstar p hp
            rw [hpk, hlnone] at this
            simp at this
          obtain ⟨mm', hmm', hstar', hnd', hfresh'⟩ :=
            ih { st with
                  swsMap := mapSet st.swsMap sw.key sw.OriginalLabels,
                  sg := { m := some (mapSet mm sw.key { id := st.sg.nextId, swKey := sw.key }),
                          nextId := st.sg.nextId + 1 },
                  additionsCount := st.additionsCount + 1,
                  started := st.started ++ [(sw.key, st.sg.nextId)],
                  actions := st.actions ++ [InstallAction.spawnWorker st.sg.nextId,
                    InstallAction.register st.sg.nextId],
                  verdicts := st.verdicts ++ [Verdict.started] }
              (mapSet mm sw.key { id := st.sg.nextId, swKey := sw.key }) rfl
              (by
                intro p hp
                rcases List.mem_append.mp hp with hp | hp
                · by_cases hpe : p.1 = sw.key
                  · rw [hpe, mapLookup_mapSet_self]
                    rfl
                  · rw [mapLookup_mapSet_ne _ _ _ _ hpe]
                    exact hstar p hp
                · rcases List.mem_singleton.mp hp with rfl
                  rw [mapLookup_mapSet_self]
                  rfl)
              (by
                simp only [List.map_append, List.nodup_append]
                refine ⟨hnd, by simp, ?_⟩
                intro a ha hb
                simp only [List.map_cons, List.map_nil, List.mem_cons,
                  List.not_mem_nil, or_false] at hb
                subst hb
                exact hkey_not ha)
          refine ⟨mm', hmm', hstar', hnd', ?_⟩
          intro p hp
          rcases hfresh' p hp with hp2 | hp2
          · rcases List.mem_append.mp hp2 with hp3 | hp3
            · exact Or.inl hp3
            · rcases List.mem_singleton.mp hp3 with rfl
              exact Or.inr hlnone
          · by_cases hpe : p.1 = sw.key
            · rw [hpe] at hp2 ⊢
              exact Or.inr hlnone
            · rw [mapLookup_mapSet_ne _ _ _ _ hpe] at hp2
              exact Or.inr hp2

/-- On a live map, additionsCount counts exactly the started scrapers. -/
theorem pass1_additions (sup : Bool) (l : List ScrapeWork) (st : Pass1St)
    (hm : st.sg.m.isSome = true)
    (h : st.additionsCount = st.started.length) :
    (pass1 sup l st).additionsCount = (pass1 sup l st).started.length := by
  induction l generalizing st with
  | nil => exact h
  | cons sw rest ih =>
    simp only [pass1]
    by_cases hdup : (lookupNil st.swsMap sw.key).isSome = true
    · simp only [if_pos hdup]
      exact ih _ hm h
    · simp only [if_neg hdup]
      cases hmm : st.sg.m with
      | none => rw [hmm] at hm; simp at hm
      | some mm =>
        by_cases hl : (mapLookup mm sw.key).isSome = true
        · simp only [if_pos hl]
          exact ih _ hm h
        · simp only [if_neg hl]
          refine ih _ (by simp) ?_
          simp [h]

/-- The first pass preserves distinctness of the live-map keys. -/
theorem pass1_keys_nodup (sup : Bool) (l : List ScrapeWork) (st : Pass1St)
    (mm : List (String × scraper)) (hm : st.sg.m = some mm)
    (hnd : (mm.map Prod.fst).Nodup) :
    ∃ mm', (pass1 sup l st).sg.m = some mm' ∧ (mm'.map Prod.fst).Nodup := by
  induction l generalizing st mm with
  | nil => exact ⟨mm, hm, hnd⟩
  | cons sw rest ih =>
    simp only [pass1]
    by_cases hdup : (lookupNil st.swsMap sw.key).isSome = true
    · simp only [if_pos hdup]
      exact ih _ mm hm hnd
    · simp only [if_neg hdup]
      cases hmm : st.sg.m with
      | none => rw [hmm] at hm; exact absurd hm (by simp)
      | some mm0 =>
        have hmm0 : mm = mm0 := by rw [hmm] at hm; exact (Option.some.inj hm).symm
        subst hmm0
        by_cases hl : (mapLookup mm sw.key).isSome = true
        · simp only [if_pos hl]
          exact ih _ mm hm hnd
        · simp only [if_neg hl]
          exact ih _ _ rfl (nodup_keys_mapSet _ _ _ hnd)

/-- On a stopped group (nil live map), the first pass leaves the group
state unchanged and starts at most one scraper — the one spawned just
before the nil-map write panics. -/
theorem pass1_m_none (sup : Bool) (l : List ScrapeWork) (st : Pass1St)
    (hm : st.sg.m = none) :
    (pass1 sup l st).sg = st.sg
      ∧ ((pass1 sup l st).started = st.started
        ∨ ∃ k, (pass1 sup l st).started = st.started ++ [(k, st.sg.nextId)]) := by
  induction l generalizing st with
  | nil => exact ⟨rfl, Or.inl rfl⟩
  | cons sw rest ih =>
    simp only [pass1]
    by_cases hdup : (lookupNil st.swsMap sw.key).isSome = true
    · simp only [if_pos hdup]
      exact ih _ hm
    · simp only [if_neg hdup, hm]
      refine ⟨by simp, Or.inr ⟨sw.key, by simp⟩⟩

/-- The trace fields of an update result are those of its first pass. -/
theorem update_proj (sg : scraperGroup) (sup : Bool) (sws : List ScrapeWork) :
    (sg.update sup sws).started = (pass1 sup sws (pass1Init sg)).started
    ∧ (sg.update sup sws).registered = (pass1 sup sws (pass1Init sg)).registered
    ∧ (sg.update sup sws).additionsCount = (pass1 sup sws (pass1Init sg)).additionsCount
    ∧ (sg.update sup sws).loggedDup = (pass1 sup sws (pass1Init sg)).loggedDup := by
  cases hpan : (pass1 sup sws (pass1Init sg)).panicked with
  | true =>
    rw [update_eq_of_panicked sg sup sws hpan]
    exact ⟨rfl, rfl, rfl, rfl⟩
  | false =>
    cases hm : (pass1 sup sws (pass1Init sg)).sg.m with
    | none =>
      rw [update_eq_of_m_none sg sup sws hpan hm]
      exact ⟨rfl, rfl, rfl, rfl⟩
    | some mm2 =>
      rw [update_eq_of_m_some sg sup sws mm2 hpan hm]
      exact ⟨rfl, rfl, rfl, rfl⟩

/-- C1: after a reconcile on a live group, the live keys are exactly the
keys of the desired entries: every live key is the key of some entry of
sws, and the key of every entry of sws is live (intra-batch duplicates
collapse onto the single scraper of their key). -/
theorem update_liveKeys_eq_desired (sg : scraperGroup)
    (mm : List (String × scraper)) (sup : Bool) (sws : List ScrapeWork)
    (hm : sg.m = some mm) :
    ∀ k, k ∈ liveKeys (sg.update sup sws).sg ↔ k ∈ sws.map ScrapeWork.key := by
  intro k
  have hm0 : (pass1Init sg).sg.m = some mm := hm
  have hpan : (pass1 sup sws (pass1Init sg)).panicked = false := by
    have h := pass1_m_isSome sup sws (pass1Init sg) (by simp [pass1Init, hm])
    rw [h.2]
    rfl
  obtain ⟨mm2, hmm2, hsub2⟩ :=
    pass1_swsMap_sub_live sup sws (pass1Init sg) mm hm0 (by simp [pass1Init])
  rw [update_eq_of_m_some sg sup sws mm2 hpan hmm2]
  simp only [liveKeys]
  rw [← mapLookup_isSome_iff, mapLookup_pass2]
  have hsws : (mapLookup (pass1 sup sws (pass1Init sg)).swsMap k).isSome = true ↔
      k ∈ sws.map ScrapeWork.key := by
    rw [mapLookup_isSome_iff,
      pass1_swsMap_mem sup sws (pass1Init sg) k (by simp [pass1Init, hm])]
    simp [pass1Init]
  constructor
  · intro h
    by_cases hc : (mapLookup (pass1 sup sws (pass1Init sg)).swsMap k).isSome = true
    · exact hsws.mp hc
    · rw [if_neg hc] at h
      simp at h
  · intro h
    have hc := hsws.mpr h
    rw [if_pos hc, mapLookup_isSome_iff]
    exact hsub2 k ((mapLookup_isSome_iff _ _).mp hc)

/-- Witness for the C1 theorem: a fresh group reconciled to one target
has exactly that key live. -/
theorem update_liveKeys_eq_desired_witness :
    "k" ∈ liveKeys (scraperGroup.init.update false
      [{ key := "k", ScrapeURL := "u", OriginalLabels := some [] }]).sg ∧
    "other" ∉ liveKeys (scraperGroup.init.update false
      [{ key := "k", ScrapeURL := "u", OriginalLabels := some [] }]).sg := by
  constructor
  · exact (update_liveKeys_eq_desired scraperGroup.init [] false _ rfl "k").mpr
      (by decide)
  · intro hmem
    have h := (update_liveKeys_eq_desired scraperGroup.init [] false
      [{ key := "k", ScrapeURL := "u", OriginalLabels := some [] }] rfl "other").mp hmem
    revert h
    decide

/-- C3: a live scraper whose key stays in the desired list survives the
reconcile as the same instance: it is still stored under its key
afterwards, it is neither restarted nor stopped, and it contributes to
neither the additions count (which counts exactly the started scrapers)
nor the deletions count (which counts exactly the stopped ones). -/
theorem update_keeps_unchanged_scraper (sg : scraperGroup)
    (mm : List (String × scraper)) (sup : Bool) (sws : List ScrapeWork)
    (k : String) (sc : scraper) (hm : sg.m = some mm)
    (hsc : mapLookup mm k = some sc) (hk : k ∈ sws.map ScrapeWork.key) :
    (∃ mm', (sg.update sup sws).sg.m = some mm' ∧ mapLookup mm' k = some sc)
      ∧ k ∉ ((sg.update sup sws).started.map Prod.fst)
      ∧ k ∉ (sg.update sup sws).stoppedKeys
      ∧ (sg.update sup sws).additionsCount = (sg.update sup sws).started.length
      ∧ (sg.update sup sws).deletionsCount = (sg.update sup sws).stoppedKeys.length := by
  have hm0 : (pass1Init sg).sg.m = some mm := hm
  have hpan : (pass1 sup sws (pass1Init sg)).panicked = false := by
    have h := pass1_m_isSome sup sws (pass1Init sg) (by simp [pass1Init, hm])
    rw [h.2]
    rfl
  obtain ⟨mm2, hmm2, hlk2⟩ := pass1_lookup_mono sup sws (pass1Init sg) mm k sc hm0 hsc
  have hred := update_eq_of_m_some sg sup sws mm2 hpan hmm2
  have hkin : k ∈ (pass1 sup sws (pass1Init sg)).swsMap.map Prod.fst := by
    rw [pass1_swsMap_mem sup sws (pass1Init sg) k (by simp [pass1Init, hm])]
    exact Or.inr hk
  have hkisome := (mapLookup_isSome_iff _ _).mpr hkin
  refine ⟨?_, ?_, ?_, ?_, ?_⟩
  · rw [hred]
    refine ⟨(pass2 (pass1 sup sws (pass1Init sg)).swsMap mm2).1, rfl, ?_⟩
    rw [mapLookup_pass2, if_pos hkisome]
    exact hlk2
  · rw [hred]
    intro hmem
    rcases List.mem_map.mp hmem with ⟨p, hp, hpk⟩
    obtain ⟨mm3, _, _, _, hfresh⟩ := pass1_started_inv sup sws (pass1Init sg) mm hm0
      (by simp [pass1Init]) (by simp [pass1Init])
    rcases hfresh p hp with h0 | h0
    · simp [pass1Init] at h0
    · rw [hpk, hsc] at h0
      simp at h0
  · rw [hred]
    intro hmem
    have h0 := (pass2_stopped_mem _ _ _).mp hmem
    rw [hkisome] at h0
    simp at h0
  · rw [hred]
    exact pass1_additions sup sws (pass1Init sg) (by simp [pass1Init, hm])
      (by simp [pass1Init])
  · rw [hred]

/-- Witness for the C3 theorem: a group with one live scraper under key k
reconciled to a list that still contains k keeps that scraper and stops
and starts nothing for it. -/
theorem update_keeps_unchanged_scraper_witness :
    "k" ∉ ((((⟨some [("k", { id := 0, swKey := "k" })], 1⟩ : scraperGroup).update
        false [{ key := "k", ScrapeURL := "u", OriginalLabels := some [] }]).started.map
          Prod.fst))
    ∧ ∃ mm', ((⟨some [("k", { id := 0, swKey := "k" })], 1⟩ : scraperGroup).update
        false [{ key := "k", ScrapeURL := "u", OriginalLabels := some [] }]).sg.m = some mm'
      ∧ mapLookup mm' "k" = some { id := 0, swKey := "k" } := by
  have h := update_keeps_unchanged_scraper
    (⟨some [("k", { id := 0, swKey := "k" })], 1⟩ : scraperGroup)
    [("k", { id := 0, swKey := "k" })] false
    [{ key := "k", ScrapeURL := "u", OriginalLabels := some [] }]
    "k" { id := 0, swKey := "k" } rfl (by decide) (by decide)
  exact ⟨h.2.1, h.1⟩

/-- A reconcile only installs scrapers at keys with no live scraper, and
never installs two scrapers for the same key within one call. -/
theorem update_started_fresh (sg : scraperGroup) (sup : Bool)
    (sws : List ScrapeWork) :
    (((sg.update sup sws).started.map Prod.fst).Nodup
      ∧ ∀ p ∈ (sg.update sup sws).started, p.1 ∉ liveKeys sg) := by
  rw [(update_proj sg sup sws).1]
  cases hsg : sg.m with
  | some mm =>
    have hm0 : (pass1Init sg).sg.m = some mm := hsg
    obtain ⟨mm2, _, _, hnd2, hfresh2⟩ := pass1_started_inv sup sws (pass1Init sg) mm hm0
      (by simp [pass1Init]) (by simp [pass1Init])
    refine ⟨hnd2, ?_⟩
    intro p hp hmem
    rcases hfresh2 p hp with h0 | h0
    · simp [pass1Init] at h0
    · simp only [liveKeys, hsg] at hmem
      have hsome := (mapLookup_isSome_iff mm p.1).mpr hmem
      rw [h0] at hsome
      simp at hsome
  | none =>
    have h1 := pass1_m_none sup sws (pass1Init sg) hsg
    have hlk : liveKeys sg = [] := by simp [liveKeys, hsg]
    rcases h1.2 with h2 | ⟨k, h2⟩
    · rw [h2]
      simp [pass1Init, hlk]
    · rw [h2, hlk]
      simp [pass1Init]

/-- A reconcile preserves distinctness of the live keys. -/
theorem update_liveKeys_nodup (sg : scraperGroup) (sup : Bool)
    (sws : List ScrapeWork) (hnd : (liveKeys sg).Nodup) :
    (liveKeys (sg.update sup sws).sg).Nodup := by
  cases hsg : sg.m with
  | some mm =>
    have hm0 : (pass1Init sg).sg.m = some mm := hsg
    have hpan : (pass1 sup sws (pass1Init sg)).panicked = false := by
      have h := pass1_m_isSome sup sws (pass1Init sg) (by simp [pass1Init, hsg])
      rw [h.2]
      rfl
    have hndm : (mm.map Prod.fst).Nodup := by
      simp only [liveKeys, hsg] at hnd
      exact hnd
    obtain ⟨mm2, hmm2, hnd2⟩ := pass1_keys_nodup sup sws (pass1Init sg) mm hm0 hndm
    rw [update_eq_of_m_some sg sup sws mm2 hpan hmm2]
    simp only [liveKeys]
    exact hnd2.sublist
      ((pass2_fst_sublist (pass1 sup sws (pass1Init sg)).swsMap mm2).map Prod.fst)
  | none =>
    have h1 := pass1_m_none sup sws (pass1Init sg) hsg
    have hm1 : (pass1 sup sws (pass1Init sg)).sg.m = none := by rw [h1.1]; exact hsg
    cases hpan : (pass1 sup sws (pass1Init sg)).panicked with
    | true =>
      rw [update_eq_of_panicked sg sup sws hpan]
      simp [liveKeys, hm1]
    | false =>
      rw [update_eq_of_m_none sg sup sws hpan hm1]
      simp [liveKeys, hm1]

/-- C2: in every reachable group state the live map associates at most one
scraper to each key, and a reconcile from a reachable state only ever
installs scrapers under keys that have no live scraper — with pairwise
distinct keys within the call — and leaves the key set duplicate-free. -/
theorem update_never_duplicates_live_key (sg : scraperGroup)
    (h : reachableGroup sg) :
    (liveKeys sg).Nodup
      ∧ ∀ (sup : Bool) (sws : List ScrapeWork),
        (((sg.update sup sws).started.map Prod.fst).Nodup
          ∧ (∀ p ∈ (sg.update sup sws).started, p.1 ∉ liveKeys sg)
          ∧ (liveKeys (sg.update sup sws).sg).Nodup) := by
  have hnd : (liveKeys sg).Nodup := by
    induction h with
    | init => simp [liveKeys, scraperGroup.init]
    | update sg0 sup0 sws0 _ ih => exact update_liveKeys_nodup sg0 sup0 sws0 ih
    | stop sg0 _ _ => simp [liveKeys, scraperGroup.stop]
  refine ⟨hnd, fun sup sws => ?_⟩
  obtain ⟨h1, h2⟩ := update_started_fresh sg sup sws
  exact ⟨h1, h2, update_liveKeys_nodup sg sup sws hnd⟩

/-- Witness for the C2 theorem at the freshly created group and a
two-target desired list sharing one key. -/
theorem update_never_duplicates_live_key_witness :
    ((scraperGroup.init.update false
      [{ key := "k", ScrapeURL := "u", OriginalLabels := some [] },
       { key := "k", ScrapeURL := "u", OriginalLabels := some [] }]).started.map
        Prod.fst).Nodup := by
  exact ((update_never_duplicates_live_key scraperGroup.init
    reachableGroup.init).2 false _).1

/-- The later occurrences of a desired list: entries whose key already
appeared in an earlier entry (or in `seen`).  This follows the wording of
the spec on intra-batch duplicates — duplicates collapse to the first
occurrence and every later occurrence is a dropped loser — and is the
reference against which the registry trace of the reconcile is checked. -/
def laterOccs (seen : List String) : List ScrapeWork → List ScrapeWork
  | [] => []
  | sw :: rest =>
    if sw.key ∈ seen then sw :: laterOccs seen rest
    else laterOccs (sw.key :: seen) rest

/-- On a live group whose incoming entries all carry non-nil original
labels, the duplicate registry trace of the first pass is exactly the
original labels of the later occurrences, and the duplicate log line
count is their number unless suppressed. -/
theorem pass1_registered_eq (sup : Bool) (l : List ScrapeWork) (st : Pass1St)
    (seen : List String)
    (hm : st.sg.m.isSome = true)
    (hl : ∀ sw ∈ l, sw.OriginalLabels.isSome = true)
    (hstored : ∀ k v, mapLookup st.swsMap k = some v → v.isSome = true)
    (hseen : ∀ k, k ∈ seen ↔ (mapLookup st.swsMap k).isSome = true) :
    (pass1 sup l st).registered =
        st.registered ++ (laterOccs seen l).map ScrapeWork.OriginalLabels
      ∧ (pass1 sup l st).loggedDup =
        st.loggedDup + (if sup = true then 0 else (laterOccs seen l).length) := by
  induction l generalizing st seen with
  | nil =>
    constructor
    · simp [pass1, laterOccs]
    · cases sup <;> simp [pass1, laterOccs]
  | cons sw rest ih =>
    simp only [pass1, laterOccs]
    by_cases hdup : (lookupNil st.swsMap sw.key).isSome = true
    · have hks : sw.key ∈ seen := (hseen sw.key).mpr (lookupNil_isSome _ _ hdup)
      simp only [if_pos hdup, if_pos hks]
      have hdnext : ∀ st2 : Pass1St,
          st2.swsMap = st.swsMap →
          st2.sg.m.isSome = true →
          st2.registered = st.registered ++ [sw.OriginalLabels] →
          st2.loggedDup = st.loggedDup + (if sup = true then 0 else 1) →
          ((pass1 sup rest st2).registered =
              st.registered ++ (sw :: laterOccs seen rest).map ScrapeWork.OriginalLabels
            ∧ (pass1 sup rest st2).loggedDup =
              st.loggedDup + (if sup = true then 0
                else (sw :: laterOccs seen rest).length)) := by
        intro st2 hsw hm2 hreg hlog
        have hstored2 : ∀ k v, mapLookup st2.swsMap k = some v → v.isSome = true := by
          intro k v hkv
          rw [hsw] at hkv
          exact hstored k v hkv
        have hseen2 : ∀ k, k ∈ seen ↔ (mapLookup st2.swsMap k).isSome = true := by
          intro k
          rw [hsw]
          exact hseen k
        obtain ⟨h1, h2⟩ := ih st2 seen hm2
          (fun x hx => hl x (List.mem_cons_of_mem _ hx)) hstored2 hseen2
        constructor
        · rw [h1, hreg]
          simp
        · rw [h2, hlog]
          cases sup <;> simp
          omega
      exact hdnext _ rfl hm rfl rfl
    · have hmlk : mapLookup st.swsMap sw.key = none := by
        cases hc : mapLookup st.swsMap sw.key with
        | none => rfl
        | some v =>
          have hv := hstored sw.key v hc
          rw [lookupNil, hc] at hdup
          exact absurd hv hdup
      have hks : sw.key ∉ seen := by
        intro hmem
        have hx := (hseen sw.key).mp hmem
        rw [hmlk] at hx
        simp at hx
      simp only [if_neg hdup, if_neg hks]
      have hnext : ∀ st2 : Pass1St,
          st2.swsMap = mapSet st.swsMap sw.key sw.OriginalLabels →
          st2.sg.m.isSome = true →
          st2.registered = st.registered →
          st2.loggedDup = st.loggedDup →
          ((pass1 sup rest st2).registered =
              st.registered ++ (laterOccs (sw.key :: seen) rest).map ScrapeWork.OriginalLabels
            ∧ (pass1 sup rest st2).loggedDup =
              st.loggedDup + (if sup = true then 0
                else (laterOccs (sw.key :: seen) rest).length)) := by
        intro st2 hsw hm2 hreg hlog
        have hstored2 : ∀ k v, mapLookup st2.swsMap k = some v → v.isSome = true := by
          intro k v hkv
          rw [hsw] at hkv
          by_cases hke : k = sw.key
          · rw [hke, mapLookup_mapSet_self] at hkv
            rw [← Option.some.inj hkv]
            exact hl sw (List.mem_cons_self ..)
          · rw [mapLookup_mapSet_ne _ _ _ _ hke] at hkv
            exact hstored k v hkv
        have hseen2 : ∀ k, k ∈ sw.key :: seen ↔
            (mapLookup st2.swsMap k).isSome = true := by
          intro k
          rw [hsw]
          by_cases hke : k = sw.key
          · subst hke
            rw [mapLookup_mapSet_self]
            simp [hl sw (List.mem_cons_self ..)]
          · rw [mapLookup_mapSet_ne _ _ _ _ hke]
            simp only [List.mem_cons, hke, false_or]
            exact hseen k
        obtain ⟨h1, h2⟩ := ih st2 (sw.key :: seen) hm2
          (fun x hx => hl x (List.mem_cons_of_mem _ hx)) hstored2 hseen2
        rw [hreg] at h1
        rw [hlog] at h2
        exact ⟨h1, h2⟩
      cases hmm : st.sg.m with
      | none => rw [hmm] at hm; simp at hm
      | some mm =>
        by_cases hlk : (mapLookup mm sw.key).isSome = true
        · simp only [if_pos hlk]
          exact hnext _ rfl hm rfl rfl
        · simp only [if_neg hlk]
          exact hnext _ rfl (by simp) rfl rfl

/-- C4 counterexample: two entries with equal keys where the first carries
a nil OriginalLabels slice.  The later occurrence is dropped via the
live-map check (verdict keptExisting, no addition), but it is NOT
registered in the duplicate registry and no duplicate diagnostic is
produced even with suppression off: the one-value read of the stored nil
slice is indistinguishable from a missing key, so the duplicate branch is
never taken. -/
theorem dup_with_nil_labels_not_registered :
    ({ key := "k", ScrapeURL := "u", OriginalLabels := none } : ScrapeWork).key
      = ({ key := "k", ScrapeURL := "u",
           OriginalLabels := some [{ name := "job", value := "x" }] } : ScrapeWork).key
    ∧ (scraperGroup.init.update false
        [{ key := "k", ScrapeURL := "u", OriginalLabels := none },
         { key := "k", ScrapeURL := "u",
           OriginalLabels := some [{ name := "job", value := "x" }] }]).registered = []
    ∧ (scraperGroup.init.update false
        [{ key := "k", ScrapeURL := "u", OriginalLabels := none },
         { key := "k", ScrapeURL := "u",
           OriginalLabels := some [{ name := "job", value := "x" }] }]).loggedDup = 0
    ∧ (scraperGroup.init.update false
        [{ key := "k", ScrapeURL := "u", OriginalLabels := none },
         { key := "k", ScrapeURL := "u",
           OriginalLabels := some [{ name := "job", value := "x" }] }]).verdicts
      = [Verdict.started, Verdict.keptExisting] := by
  decide

/-- C4 amended: on a live group, when every desired entry carries a
non-nil OriginalLabels slice, a scraper is started at most once per key
and every later occurrence of a repeated key is dropped and has its
original labels registered in the duplicate registry — independently of
the suppress flag, which only controls whether each such duplicate also
produces a diagnostic log line.  (The counterexample shows that with a
nil-labels first occurrence the later occurrence is still dropped but not
registered.) -/
theorem dup_occurrences_registered_of_labels_present (sg : scraperGroup)
    (mm : List (String × scraper)) (sup : Bool) (sws : List ScrapeWork)
    (hm : sg.m = some mm)
    (hl : ∀ sw ∈ sws, sw.OriginalLabels.isSome = true) :
    (sg.update sup sws).registered = (laterOccs [] sws).map ScrapeWork.OriginalLabels
      ∧ (sg.update sup sws).loggedDup =
        (if sup = true then 0 else (laterOccs [] sws).length)
      ∧ ((sg.update sup sws).started.map Prod.fst).Nodup := by
  have hp := pass1_registered_eq sup sws (pass1Init sg) [] (by simp [pass1Init, hm])
    hl (by intro k v hkv; simp [pass1Init, mapLookup] at hkv)
    (by intro k; simp [pass1Init, mapLookup])
  obtain ⟨hs, hr, _, hd⟩ := update_proj sg sup sws
  refine ⟨?_, ?_, (update_started_fresh sg sup sws).1⟩
  · rw [hr, hp.1]
    simp [pass1Init]
  · rw [hd, hp.2]
    simp [pass1Init]

/-- Witness for the C4 amended theorem: a duplicated key with non-nil
labels is registered once even with suppression on, and nothing is
logged. -/
theorem dup_occurrences_registered_witness :
    (scraperGroup.init.update true
      [{ key := "k", ScrapeURL := "u", OriginalLabels := some [] },
       { key := "k", ScrapeURL := "u", OriginalLabels := some [] }]).registered
      = [some []]
    ∧ (scraperGroup.init.update true
      [{ key := "k", ScrapeURL := "u", OriginalLabels := some [] },
       { key := "k", ScrapeURL := "u", OriginalLabels := some [] }]).loggedDup = 0 := by
  have h := dup_occurrences_registered_of_labels_present scraperGroup.init [] true
    [{ key := "k", ScrapeURL := "u", OriginalLabels := some [] },
     { key := "k", ScrapeURL := "u", OriginalLabels := some [] }] rfl (by decide)
  refine ⟨?_, ?_⟩
  · rw [h.1]
    decide
  · rw [h.2.1]
    decide

/-- Increments distribute over trace concatenation. -/
theorem countAdd_append (l1 l2 : List PendingOp) :
    countAdd (l1 ++ l2) = countAdd l1 + countAdd l2 := by
  induction l1 with
  | nil => simp [countAdd]
  | cons op rest ih =>
    cases op <;> simp [countAdd, ih]
    omega

/-- Decrements distribute over trace concatenation. -/
theorem countDec_append (l1 l2 : List PendingOp) :
    countDec (l1 ++ l2) = countDec l1 + countDec l2 := by
  induction l1 with
  | nil => simp [countDec]
  | cons op rest ih =>
    cases op <;> simp [countDec, ih]
    omega

/-- The counter value is the number of increments minus the number of
decrements: every add call moves it up by one, every dec call down by
one. -/
theorem pendingAfter_eq_counts (l : List PendingOp) :
    pendingAfter l = (countAdd l : Int) - countDec l := by
  induction l with
  | nil => simp [pendingAfter, countAdd, countDec]
  | cons op rest ih =>
    cases op <;> simp [pendingAfter, countAdd, countDec, ih] <;> ring_nf

/-- Counting adds in a block of adds. -/
theorem countAdd_replicate_add (n : Nat) :
    countAdd (List.replicate n PendingOp.add) = n := by
  induction n with
  | zero => simp [countAdd]
  | succ k ih => simp [List.replicate_succ, countAdd, ih]

/-- A block of decrements holds no adds. -/
theorem countAdd_replicate_dec (n : Nat) :
    countAdd (List.replicate n PendingOp.dec) = 0 := by
  induction n with
  | zero => simp [countAdd]
  | succ k ih => simp [List.replicate_succ, countAdd, ih]

/-- A block of adds holds no decrements. -/
theorem countDec_replicate_add (n : Nat) :
    countDec (List.replicate n PendingOp.add) = 0 := by
  induction n with
  | zero => simp [countDec]
  | succ k ih => simp [List.replicate_succ, countDec, ih]

/-- Counting decrements in a block of decrements. -/
theorem countDec_replicate_dec (n : Nat) :
    countDec (List.replicate n PendingOp.dec) = n := by
  induction n with
  | zero => simp [countDec]
  | succ k ih => simp [List.replicate_succ, countDec, ih]

/-- Prefixes of a run trace: the first min t n adds, then decrements. -/
theorem runTrace_take (n t : Nat) :
    (runTrace n).take t = List.replicate (min t n) PendingOp.add ++
      List.replicate (min (t - n) n) PendingOp.dec := by
  unfold runTrace
  rw [List.take_append_eq_append_take, List.take_replicate, List.take_replicate,
    List.length_replicate]

/-- C8: over the trace of a run with n categories — n increments, one per
scrapeConfigs.add call, all before the first fan-out, then n decrements,
one per scrapeConfig after its first extract-and-update — the counter at
every instant equals adds so far minus decs so far; it reads zero iff the
adds and decs performed so far balance, i.e. iff every category created so
far has applied the initial config; once all categories are created it
returns to zero exactly at the end of the trace (reaching zero exactly
once after the start), and it stays zero from then on (it never increases
after reaching zero). -/
theorem pendingScrapeConfigs_lifecycle (n t : Nat) :
    countAdd (runTrace n) = n
    ∧ countDec (runTrace n) = n
    ∧ pendingAt n t =
        (countAdd ((runTrace n).take t) : Int) - countDec ((runTrace n).take t)
    ∧ (pendingAt n t = 0 ↔
        countAdd ((runTrace n).take t) = countDec ((runTrace n).take t))
    ∧ (2 * n ≤ t → pendingAt n t = 0)
    ∧ (1 ≤ t → t ≤ 2 * n → (pendingAt n t = 0 ↔ t = 2 * n)) := by
  have htake := runTrace_take n t
  have hA : countAdd ((runTrace n).take t) = min t n := by
    rw [htake, countAdd_append, countAdd_replicate_add, countAdd_replicate_dec]
    omega
  have hD : countDec ((runTrace n).take t) = min (t - n) n := by
    rw [htake, countDec_append, countDec_replicate_add, countDec_replicate_dec]
    omega
  have hP : pendingAt n t = ((min t n : Nat) : Int) - ((min (t - n) n : Nat) : Int) := by
    unfold pendingAt
    rw [pendingAfter_eq_counts, hA, hD]
  refine ⟨?_, ?_, ?_, ?_, ?_, ?_⟩
  · unfold runTrace
    rw [countAdd_append, countAdd_replicate_add, countAdd_replicate_dec]
    omega
  · unfold runTrace
    rw [countDec_append, countDec_replicate_add, countDec_replicate_dec]
    omega
  · unfold pendingAt
    exact pendingAfter_eq_counts _
  · rw [hP, hA, hD]
    omega
  · rw [hP]
    omega
  · rw [hP]
    omega

/-- Witness for the C8 theorem with three categories: the counter is back
to zero after the full trace but is nonzero in the middle of the
decrement phase. -/
theorem pendingScrapeConfigs_lifecycle_witness :
    pendingAt 3 6 = 0 ∧ pendingAt 3 4 ≠ 0 := by
  have h6 := pendingScrapeConfigs_lifecycle 3 6
  have h4 := pendingScrapeConfigs_lifecycle 3 4
  refine ⟨h6.2.2.2.2.1 (by decide), ?_⟩
  intro h
  have h0 := (h4.2.2.2.2.2 (by decide) (by decide)).mp h
  exact absurd h0 (by decide)
